import Mathlib

/-!
# BCCE workflow subsystem: a shallow embedding

Shallow embedding of the workflow CLI of the `bedrock-claude-code-enablement`
repository, together with proofs of the behavioural properties stated in its
specification.

The embedded code comes from:
* `cli/src/commands/workflow/workflow.ts` — the `validate` and `diagram`
  commands (semantic validation loop, DOT graph generation);
* `cli/src/commands/policy/policy.ts` — the `print` command and its
  module-level policy constants;
* `cli/src/lib/config.ts` — `saveConfig`.

The execution engine, the resume controller and the JSON-schema file
`workflows/schemas/workflow.v1.schema.json` do not exist in the repository
(the `run` and `resume` commands are stubs and the schema file is absent
from the sources); those parts are modelled from the specification and are
marked `Modelled from the spec:` in their doc comments.
-/

namespace BCCE

/-! ## Raw workflow documents

The shape of a parsed workflow YAML document as the `validate` command sees
it after `yaml.parse`: optional fields are `Option`s (an absent key is
`none`).  Step `id` and `type` are kept as plain strings because the schema
pass requires their presence before the semantic loop runs.
-/

/-- An agent step policy block as it appears in a parsed document. -/
structure RawPolicy where
  timeout_seconds : Option Int
  max_files : Option Int
  max_edits : Option Int
  allowed_paths : Option (List String)
  cmd_allowlist : Option (List String)
deriving DecidableEq, Repr, Inhabited

/-- One entry of the `steps` array of a parsed workflow document. -/
structure RawStep where
  id : String
  type : String
  prompt_file : Option String
  command : Option String
  policy : Option RawPolicy
  on_error : Option String
  approve : Option Bool
deriving DecidableEq, Repr, Inhabited

/-- A parsed workflow document (top level of the YAML file). -/
structure RawDoc where
  version : Option Int
  workflow : Option String
  model : Option String
  steps : Option (List RawStep)
  guardrails : Option (List String)
deriving DecidableEq, Repr, Inhabited

/-! ## Structural (schema) pass -/

/-- One structural violation, in the shape Ajv reports it: the offending
path inside the document (`instancePath`) and a human-readable message. -/
structure SchemaError where
  path : String
  message : String
deriving DecidableEq, Repr, Inhabited

/-- Modelled from the spec: the JSON-schema file
`workflows/schemas/workflow.v1.schema.json` loaded by the `validate`
command is not part of the sources.  Required top-level field check for
`version`, per the data model (schema version is a required integer). -/
def checkVersion (d : RawDoc) : List SchemaError :=
  match d.version with
  | none => [⟨"root", "must have required property version"⟩]
  | some _ => []

/-- Modelled from the spec: required top-level display name. -/
def checkWorkflowName (d : RawDoc) : List SchemaError :=
  match d.workflow with
  | none => [⟨"root", "must have required property workflow"⟩]
  | some _ => []

/-- Modelled from the spec: required top-level model reference. -/
def checkModel (d : RawDoc) : List SchemaError :=
  match d.model with
  | none => [⟨"root", "must have required property model"⟩]
  | some _ => []

/-- Modelled from the spec: the step `type` discriminator is an enum over
the four step kinds. -/
def checkStepType (i : Nat) (s : RawStep) : List SchemaError :=
  if s.type = "prompt" ∨ s.type = "cmd" ∨ s.type = "agent" ∨ s.type = "apply_diff" then []
  else [⟨"/steps/" ++ toString i ++ "/type", "must be equal to one of the allowed values"⟩]

/-- Modelled from the spec: Policy numeric bounds — timeout and max_files
positive, `max_edits ≥ 1`, `allowed_paths` non-empty (§3 of the spec; the
repository's own testing report records the `max_edits ≥ 1` bound as
enforced by `validate`). -/
def checkPolicyBounds (i : Nat) (s : RawStep) : List SchemaError :=
  match s.policy with
  | none => []
  | some p =>
    let base := "/steps/" ++ toString i ++ "/policy/"
    (match p.timeout_seconds with
     | none => [(⟨base ++ "timeout_seconds", "must have required property timeout_seconds"⟩ : SchemaError)]
     | some t => if t ≥ 1 then [] else [⟨base ++ "timeout_seconds", "must be >= 1"⟩]) ++
    (match p.max_files with
     | none => [(⟨base ++ "max_files", "must have required property max_files"⟩ : SchemaError)]
     | some n => if n ≥ 1 then [] else [⟨base ++ "max_files", "must be >= 1"⟩]) ++
    (match p.max_edits with
     | none => [(⟨base ++ "max_edits", "must have required property max_edits"⟩ : SchemaError)]
     | some n => if n ≥ 1 then [] else [⟨base ++ "max_edits", "must be >= 1"⟩]) ++
    (match p.allowed_paths with
     | none => [(⟨base ++ "allowed_paths", "must have required property allowed_paths"⟩ : SchemaError)]
     | some l => if l.isEmpty then [⟨base ++ "allowed_paths", "must NOT have fewer than 1 items"⟩] else [])

/-- Modelled from the spec: per-step structural checks, plus the required
`steps` array itself. -/
def checkSteps (d : RawDoc) : List SchemaError :=
  match d.steps with
  | none => [⟨"root", "must have required property steps"⟩]
  | some ss =>
    (List.range ss.length).flatMap fun i =>
      checkStepType i (ss.getD i default) ++ checkPolicyBounds i (ss.getD i default)

/-- Modelled from the spec: the structural pass collects the violations of
every check (the source constructs Ajv with `allErrors: true`, so no check
short-circuits another). -/
def schemaCheck (d : RawDoc) : List SchemaError :=
  checkVersion d ++ checkWorkflowName d ++ checkModel d ++ checkSteps d

/-! ## Semantic pass

Direct embedding of the loop in the `validate` command of
`cli/src/commands/workflow/workflow.ts` (lines 61–83): a `Set` of ids seen
so far, the duplicate-id check first, then the per-type mandatory-field
checks, exiting at the first error.  JavaScript truthiness makes an empty
string count as a missing `prompt_file`/`command`.
-/

/-- A semantic validation error: either a duplicate step id or a missing
type-specific mandatory field, named by step id and field. -/
inductive SemErr where
  | duplicateId (id : String)
  | missingField (stepId : String) (field : String)
deriving DecidableEq, Repr

/-- JavaScript falsiness of an optional string field (`!step.prompt_file`):
absent or the empty string. -/
def strFalsy : Option String → Bool
  | none => true
  | some s => s = ""

/-- The per-step mandatory-field checks of the semantic loop, in source
order (prompt, cmd, agent). -/
def stepFieldError (s : RawStep) : Option SemErr :=
  if s.type = "prompt" ∧ strFalsy s.prompt_file then some (.missingField s.id "prompt_file")
  else if s.type = "cmd" ∧ strFalsy s.command then some (.missingField s.id "command")
  else if s.type = "agent" ∧ s.policy.isNone then some (.missingField s.id "policy")
  else none

/-- The semantic loop with the set of already-seen ids made explicit (the
source's `stepIds` set, modelled as a list used only through membership). -/
def semanticCheckFrom (seen : List String) : List RawStep → Option SemErr
  | [] => none
  | s :: rest =>
    if s.id ∈ seen then some (.duplicateId s.id)
    else
      match stepFieldError s with
      | some e => some e
      | none => semanticCheckFrom (seen ++ [s.id]) rest

/-- The semantic pass over the document's steps (`workflow.steps || []`). -/
def semanticCheck (steps : List RawStep) : Option SemErr :=
  semanticCheckFrom [] steps

/-! ## The whole `validate` command -/

/-- The error result of `validate`: either the full list of structural
violations, or the first semantic error. -/
inductive ValidateError where
  | schema (errors : List SchemaError)
  | semantic (e : SemErr)
deriving DecidableEq, Repr

/-- The `validate` command: structural pass (all errors reported together),
then the semantic loop, accepting only a document that passes both. -/
def validateWorkflow (d : RawDoc) : Except ValidateError RawDoc :=
  match schemaCheck d with
  | [] =>
    match semanticCheck (d.steps.getD []) with
    | some e => .error (.semantic e)
    | none => .ok d
  | e :: es => .error (.schema (e :: es))

/-- Whether `validate` accepted the document. -/
def isAccepted (r : Except ValidateError RawDoc) : Bool :=
  match r with
  | .ok _ => true
  | .error _ => false

/-! ## Characterising the semantic loop

`stepVerdict prior s` is the error the loop raises at a step `s` when the
ids seen before it are exactly `prior`; the lemmas below relate one pass of
`semanticCheckFrom` to the per-index verdicts.
-/

/-- The ids of the steps strictly before index `i`, in document order. -/
def idsBefore (steps : List RawStep) (i : Nat) : List String :=
  (steps.take i).map RawStep.id

/-- The error (if any) the semantic loop raises at one step, given the ids
seen before it. -/
def stepVerdict (prior : List String) (s : RawStep) : Option SemErr :=
  if s.id ∈ prior then some (.duplicateId s.id) else stepFieldError s

theorem idsBefore_zero (steps : List RawStep) : idsBefore steps 0 = [] := by
  simp [idsBefore]

theorem idsBefore_cons_succ (s : RawStep) (rest : List RawStep) (j : Nat) :
    idsBefore (s :: rest) (j + 1) = s.id :: idsBefore rest j := by
  simp [idsBefore]

/-- The per-step field check never reports a duplicate id. -/
theorem stepFieldError_ne_dup (s : RawStep) (x : String) :
    stepFieldError s ≠ some (.duplicateId x) := by
  unfold stepFieldError
  split
  · simp
  · split
    · simp
    · split <;> simp

/-- Membership in the prefix-ids list, phrased by index. -/
theorem mem_idsBefore {x : String} :
    ∀ (steps : List RawStep) (k : Nat),
      x ∈ idsBefore steps k ↔
        ∃ j, j < k ∧ j < steps.length ∧ (steps.getD j default).id = x := by
  intro steps
  induction steps with
  | nil => intro k; simp [idsBefore]
  | cons s rest ih =>
    intro k
    cases k with
    | zero => simp [idsBefore_zero]
    | succ k' =>
      rw [idsBefore_cons_succ]
      simp only [List.mem_cons, ih k']
      constructor
      · rintro (rfl | ⟨j, hj, hjl, hid⟩)
        · exact ⟨0, by omega, by simp, by simp⟩
        · exact ⟨j + 1, by omega, by simpa using hjl, by simpa using hid⟩
      · rintro ⟨j, hj, hjl, hid⟩
        cases j with
        | zero => left; exact hid.symm
        | succ j' => right; exact ⟨j', by omega, by simpa using hjl, by simpa using hid⟩

/-- If one pass of the loop finds no error, the verdict at every index is
clean. -/
theorem semFrom_none :
    ∀ (steps : List RawStep) (seen : List String),
      semanticCheckFrom seen steps = none →
      ∀ i, i < steps.length →
        stepVerdict (seen ++ idsBefore steps i) (steps.getD i default) = none := by
  intro steps
  induction steps with
  | nil => intro seen _ i hi; simp at hi
  | cons s rest ih =>
    intro seen h i hi
    rw [semanticCheckFrom] at h
    by_cases hmem : s.id ∈ seen
    · rw [if_pos hmem] at h; exact absurd h (by simp)
    · rw [if_neg hmem] at h
      cases hfe : stepFieldError s with
      | some e => rw [hfe] at h; exact absurd h (by simp)
      | none =>
        rw [hfe] at h
        cases i with
        | zero =>
          rw [idsBefore_zero, List.append_nil]
          simp [stepVerdict, hmem, hfe]
        | succ j =>
          have hj : j < rest.length := by simpa using hi
          have hv := ih (seen ++ [s.id]) h j hj
          rw [idsBefore_cons_succ, List.append_cons]
          simpa using hv

/-- If the loop reports a duplicate id `x`, then `x` sits at some index `i`
whose id already occurred (in `seen` or among the earlier steps), and every
index before `i` has a clean verdict. -/
theorem semFrom_dup :
    ∀ (steps : List RawStep) (seen : List String) (x : String),
      semanticCheckFrom seen steps = some (.duplicateId x) →
      ∃ i, i < steps.length ∧ (steps.getD i default).id = x ∧
        (steps.getD i default).id ∈ seen ++ idsBefore steps i ∧
        ∀ j, j < i →
          stepVerdict (seen ++ idsBefore steps j) (steps.getD j default) = none := by
  intro steps
  induction steps with
  | nil => intro seen x h; simp [semanticCheckFrom] at h
  | cons s rest ih =>
    intro seen x h
    rw [semanticCheckFrom] at h
    by_cases hmem : s.id ∈ seen
    · rw [if_pos hmem] at h
      have hx : s.id = x := by simpa using h
      refine ⟨0, by simp, by simpa using hx, ?_, by omega⟩
      rw [idsBefore_zero, List.append_nil]
      simpa using hmem
    · rw [if_neg hmem] at h
      cases hfe : stepFieldError s with
      | some e0 =>
        rw [hfe] at h
        have : e0 = SemErr.duplicateId x := by simpa using h
        exact absurd (this ▸ hfe) (stepFieldError_ne_dup s x)
      | none =>
        rw [hfe] at h
        obtain ⟨i, hi, hid, hmem', hclean⟩ := ih (seen ++ [s.id]) x h
        refine ⟨i + 1, by simpa using hi, by simpa using hid, ?_, ?_⟩
        · rw [idsBefore_cons_succ, List.append_cons]
          simpa using hmem'
        · intro j hj
          cases j with
          | zero =>
            rw [idsBefore_zero, List.append_nil]
            simp [stepVerdict, hmem, hfe]
          | succ k =>
            have hv := hclean k (by omega)
            rw [idsBefore_cons_succ, List.append_cons]
            simpa using hv

/-- If every index before `i` has a clean verdict and the verdict at `i` is
an error, the loop reports exactly that error. -/
theorem semFrom_some_of :
    ∀ (steps : List RawStep) (seen : List String) (i : Nat) (e : SemErr),
      i < steps.length →
      (∀ j, j < i →
        stepVerdict (seen ++ idsBefore steps j) (steps.getD j default) = none) →
      stepVerdict (seen ++ idsBefore steps i) (steps.getD i default) = some e →
      semanticCheckFrom seen steps = some e := by
  intro steps
  induction steps with
  | nil => intro seen i e hi; simp at hi
  | cons s rest ih =>
    intro seen i e hi hclean hv
    cases i with
    | zero =>
      rw [idsBefore_zero, List.append_nil] at hv
      simp only [List.getD_cons_zero] at hv
      rw [semanticCheckFrom]
      unfold stepVerdict at hv
      by_cases hmem : s.id ∈ seen
      · rw [if_pos hmem] at hv; rw [if_pos hmem]; simpa using hv
      · rw [if_neg hmem] at hv; rw [if_neg hmem, hv]
    | succ j =>
      have h0 := hclean 0 (Nat.succ_pos j)
      rw [idsBefore_zero, List.append_nil] at h0
      simp only [List.getD_cons_zero] at h0
      unfold stepVerdict at h0
      by_cases hmem : s.id ∈ seen
      · rw [if_pos hmem] at h0; exact absurd h0 (by simp)
      · rw [if_neg hmem] at h0
        rw [semanticCheckFrom, if_neg hmem, h0]
        refine ih (seen ++ [s.id]) j e (by simpa using hi) ?_ ?_
        · intro k hk
          have hv' := hclean (k + 1) (by omega)
          rw [idsBefore_cons_succ, List.append_cons] at hv'
          simpa using hv'
        · rw [idsBefore_cons_succ, List.append_cons] at hv
          simpa using hv

/-! ## Claim-side phrasing of the mandatory-field rule -/

/-- The type-specific mandatory field of a step, by its `type` tag. -/
def mandatoryFieldOf (s : RawStep) : Option String :=
  if s.type = "prompt" then some "prompt_file"
  else if s.type = "cmd" then some "command"
  else if s.type = "agent" then some "policy"
  else none

/-- Whether a step lacks the given mandatory field (JavaScript truthiness
for the string fields, absence for the policy object). -/
def lacksField (s : RawStep) (f : String) : Bool :=
  if f = "prompt_file" then strFalsy s.prompt_file
  else if f = "command" then strFalsy s.command
  else if f = "policy" then s.policy.isNone
  else false

/-! ## Diagram exporter

Embedding of the `diagram` command of
`cli/src/commands/workflow/workflow.ts` (lines 141–164): one DOT node per
step, with shape and fill colour chosen from the step type, and one edge
between each consecutive pair of steps (`for (let i = 0; i < steps.length
- 1; i++)`).
-/

/-- A DOT node emitted by the diagram command: label carries the step id
and its type, shape and colour styled by the type. -/
structure DiagramNode where
  id : String
  type : String
  shape : String
  color : String
deriving DecidableEq, Repr, Inhabited

/-- A directed DOT edge emitted by the diagram command. -/
structure DiagramEdge where
  src : String
  dst : String
deriving DecidableEq, Repr, Inhabited

/-- The node generated for one step. -/
def nodeOf (s : RawStep) : DiagramNode :=
  ⟨s.id, s.type,
   if s.type = "agent" then "diamond" else "box",
   if s.type = "cmd" then "lightblue"
   else if s.type = "agent" then "orange"
   else if s.type = "apply_diff" then "lightcoral" else "lightgreen"⟩

/-- The nodes of the exported diagram, one per step in document order. -/
def diagramNodes (steps : List RawStep) : List DiagramNode :=
  steps.map nodeOf

/-- The edges of the exported diagram: step `i` to step `i + 1` for
`i < steps.length - 1`, exactly as the source loop emits them. -/
def diagramEdges (steps : List RawStep) : List DiagramEdge :=
  (List.range (steps.length - 1)).map fun i =>
    ⟨(steps.getD i default).id, (steps.getD (i + 1) default).id⟩

/-! ## Execution engine (modelled from the spec)

The `run` and `resume` commands in `workflow.ts` are stubs ("not yet
implemented"); the engine below is modelled from the specification's
component design (§3–§5): a validated Definition's steps, a per-step
executor report, the Policy Guard, and the sequential state machine with
the run-level failure rule.
-/

/-- Modelled from the spec: a Policy embedded in an `agent` step of a
validated Definition (§3). -/
structure Policy where
  timeout_seconds : Nat
  max_files : Nat
  max_edits : Nat
  allowed_paths : List String
  cmd_allowlist : List String
deriving DecidableEq, Repr, Inhabited

/-- Modelled from the spec: the four step kinds of a validated Definition,
as a closed tagged variant (§3, Design Notes). -/
inductive StepKind where
  | prompt (promptFile : String)
  | cmd (command : String) (onErrorContinue : Bool)
  | agent (policy : Policy)
  | applyDiff (approve : Bool)
deriving DecidableEq, Repr, Inhabited

/-- Modelled from the spec: one step of a validated Definition. -/
structure Step where
  id : String
  kind : StepKind
deriving DecidableEq, Repr, Inhabited

/-- Modelled from the spec: the resource counters a cmd/agent step
accumulates during execution (§3, §4.3). -/
structure Counters where
  filesTouched : Nat
  editsApplied : Nat
  elapsedSeconds : Nat
  touchedPaths : List String
  invokedCmds : List String
deriving DecidableEq, Repr, Inhabited

/-- Modelled from the spec: glob matching for `allowed_paths` — `**`
crosses directory boundaries, `*` does not (§4.3). -/
def globChars : List Char → List Char → Bool
  | [], [] => true
  | [], _ :: _ => false
  | '*' :: '*' :: ps, cs =>
    globChars ps cs ||
      (match cs with
       | [] => false
       | _ :: cs' => globChars ('*' :: '*' :: ps) cs')
  | '*' :: ps, cs =>
    globChars ps cs ||
      (match cs with
       | [] => false
       | c :: cs' => if c = '/' then false else globChars ('*' :: ps) cs')
  | _ :: _, [] => false
  | p :: ps, c :: cs => p = c && globChars ps cs
termination_by ps cs => (ps.length, cs.length)

/-- Glob matching on strings. -/
def globMatch (pattern path : String) : Bool :=
  globChars pattern.toList path.toList

/-- Modelled from the spec: the dimensions along which the Policy Guard
can detect a breach, each carrying the offending value (§4.3, §7). -/
inductive PolicyBreach where
  | timeExceeded (elapsedSeconds : Nat)
  | tooManyFiles (filesTouched : Nat)
  | tooManyEdits (editsApplied : Nat)
  | pathNotAllowed (path : String)
  | commandNotAllowed (command : String)
deriving DecidableEq, Repr

/-- Modelled from the spec: the Policy Guard, `check(policy, counters)`:
elapsed time against `timeout_seconds`, files touched against `max_files`,
edits against `max_edits`, every touched path against `allowed_paths`,
every invoked command against `cmd_allowlist`; the first breach found is
reported (§4.3). -/
def policyCheck (p : Policy) (c : Counters) : Option PolicyBreach :=
  if p.timeout_seconds < c.elapsedSeconds then some (.timeExceeded c.elapsedSeconds)
  else if p.max_files < c.filesTouched then some (.tooManyFiles c.filesTouched)
  else if p.max_edits < c.editsApplied then some (.tooManyEdits c.editsApplied)
  else
    match c.touchedPaths.find? (fun path => !(p.allowed_paths.any fun g => globMatch g path)) with
    | some path => some (.pathNotAllowed path)
    | none =>
      match c.invokedCmds.find? (fun cmd => !(p.cmd_allowlist.contains cmd)) with
      | some cmd => some (.commandNotAllowed cmd)
      | none => none

/-- Modelled from the spec: what a type-specific executor reports back to
the engine (§6 external interfaces). -/
inductive Report where
  | cmdExit (exitCode : Int)
  | agentDone (ok : Bool) (counters : Counters)
  | promptDone (ok : Bool)
  | diffDone (applied : Bool)
deriving DecidableEq, Repr, Inhabited

/-- Modelled from the spec: terminal StepExecution statuses of the step
state machine (§4.2). -/
inductive StepStatus where
  | pending
  | running
  | succeeded
  | failed
  | policyViolation
  | skipped
deriving DecidableEq, Repr, Inhabited

/-- Modelled from the spec: the record of one attempt of one step within a
run; `nonFatalFailure` preserves the distinction between "run continues"
and "step succeeded" for a `cmd` step with `on_error: continue` (§4.2). -/
structure StepExec where
  stepId : String
  status : StepStatus
  nonFatalFailure : Bool
  breach : Option PolicyBreach
deriving DecidableEq, Repr

instance : Inhabited StepExec := ⟨⟨"", .pending, false, none⟩⟩

/-- Modelled from the spec: overall run status. -/
inductive RunStatus where
  | running
  | succeeded
  | failed
deriving DecidableEq, Repr, Inhabited

/-- Modelled from the spec: the outcome the engine leaves behind — the
StepExecutions in workflow order, the run status, and the artifact-store
step subdirectories in creation order (§3, §4.4). -/
structure RunResult where
  execs : List StepExec
  status : RunStatus
  artifacts : List String
deriving DecidableEq, Repr

/-- Modelled from the spec: dispatch of one step to its executor and the
transition out of `running` (§4.2): `cmd` exit 0 succeeds, nonzero exit
with `on_error: continue` succeeds-with-failure-noted, otherwise fails;
`agent` consults the Policy Guard, a breach ends `policy_violation`,
otherwise the runner's own status decides; `prompt` and `apply_diff`
follow their executors; a report of the wrong shape is an executor error
and fails the step. -/
def execStep (s : Step) (r : Report) : StepExec :=
  match s.kind, r with
  | .cmd _ cont, .cmdExit code =>
    if code = 0 then ⟨s.id, .succeeded, false, none⟩
    else if cont then ⟨s.id, .succeeded, true, none⟩
    else ⟨s.id, .failed, false, none⟩
  | .agent pol, .agentDone ok cnt =>
    (match policyCheck pol cnt with
     | some v => ⟨s.id, .policyViolation, false, some v⟩
     | none => if ok then ⟨s.id, .succeeded, false, none⟩ else ⟨s.id, .failed, false, none⟩)
  | .prompt _, .promptDone ok =>
    if ok then ⟨s.id, .succeeded, false, none⟩ else ⟨s.id, .failed, false, none⟩
  | .applyDiff _, .diffDone applied =>
    if applied then ⟨s.id, .succeeded, false, none⟩ else ⟨s.id, .failed, false, none⟩
  | _, _ => ⟨s.id, .failed, false, none⟩

/-- Modelled from the spec: the sequential engine loop (§4.2, §5).  Steps
run strictly in order; the i-th report is what the executor reports for
the i-th step; once the run is failed every remaining step is skipped and
no artifact subdirectory is created for it; an executed step's artifact
subdirectory (named by its step id) is recorded before the engine
advances. -/
def runSteps : List Step → List Report → Bool → List StepExec × Bool × List String
  | [], _, failedSoFar => ([], failedSoFar, [])
  | s :: rest, reports, failedSoFar =>
    if failedSoFar then
      let t := runSteps rest reports.tail true
      (⟨s.id, .skipped, false, none⟩ :: t.1, t.2.1, t.2.2)
    else
      match reports with
      | r :: rs =>
        let e := execStep s r
        let nowFailed := e.status = StepStatus.failed ∨ e.status = StepStatus.policyViolation
        let t := runSteps rest rs (decide nowFailed)
        (e :: t.1, t.2.1, s.id :: t.2.2)
      | [] =>
        let t := runSteps rest [] true
        (⟨s.id, .failed, false, none⟩ :: t.1, true, s.id :: t.2.2)

/-- Modelled from the spec: one fresh execution attempt of a workflow —
the run-level rule makes the run `failed` the first time a StepExecution
ends `failed` or `policy_violation`, otherwise `succeeded` after the last
step (§4.2). -/
def runWorkflow (steps : List Step) (reports : List Report) : RunResult :=
  let t := runSteps steps reports false
  ⟨t.1, if t.2.1 then .failed else .succeeded, t.2.2⟩

/-- Claim-side success of one executor report for one step: the executor
reports normal completion and, for an `agent` step, the Policy Guard finds
no breach. -/
def reportSuccess (s : Step) (r : Report) : Bool :=
  match s.kind, r with
  | .cmd _ _, .cmdExit code => code = 0
  | .agent pol, .agentDone ok cnt => ok && (policyCheck pol cnt).isNone
  | .prompt _, .promptDone ok => ok
  | .applyDiff _, .diffDone applied => applied
  | _, _ => false

/-! ## Resume controller (modelled from the spec) -/

/-- Modelled from the spec: a content-derived hash of a Definition, used
to detect drift of the on-disk workflow document (§4.5). -/
def stepEncode (s : Step) : String :=
  s.id ++ "/" ++
    (match s.kind with
     | .prompt f => "prompt:" ++ f
     | .cmd c cont => "cmd:" ++ c ++ (if cont then ":continue" else ":fail")
     | .agent p => "agent:" ++ toString p.timeout_seconds ++ ":" ++ toString p.max_files
         ++ ":" ++ toString p.max_edits ++ ":" ++ String.intercalate "," p.allowed_paths
         ++ ":" ++ String.intercalate "," p.cmd_allowlist
     | .applyDiff a => "apply_diff:" ++ (if a then "approve" else "gate"))

/-- Modelled from the spec: the Definition hash recorded in a RunState. -/
def defHash (steps : List Step) : Nat :=
  (String.intercalate ";" (steps.map stepEncode)).toList.foldl
    (fun h c => h * 31 + c.toNat) 5381

/-- Modelled from the spec: the persisted RunState of a run — the recorded
Workflow, the Definition hash recorded at run creation, and every
StepExecution's status (§4.4, §4.5). -/
structure RunState where
  steps : List Step
  docHash : Nat
  execs : List StepExec
deriving DecidableEq, Repr

/-- Modelled from the spec: the resume failure taxonomy (§4.5, §7). -/
inductive ResumeError where
  | unknownRun (runId : String)
  | unknownStep (stepId : String)
  | hashMismatch (recorded current : Nat)
deriving DecidableEq, Repr

/-- Modelled from the spec: continuing a loaded run — StepExecutions
before the resume point are left exactly as persisted, the resume step and
everything after it is reset and handed to the engine as if starting fresh
from that point (§4.5). -/
def resumeRun (st : RunState) (reports : List Report) (k : Nat) : RunResult :=
  let t := runSteps (st.steps.drop k) reports false
  ⟨st.execs.take k ++ t.1, if t.2.1 then .failed else .succeeded, t.2.2⟩

/-- Modelled from the spec: `resume(runId, fromStepId)` — fails with a
ResumeError if the run id is unknown, if `fromStepId` is not a step of the
recorded Workflow, or if the recorded Definition hash no longer matches
the on-disk workflow document; only then is the engine re-entered (§4.5).
The artifact store is modelled as an association list from run id to
persisted RunState, and `onDisk` is the workflow document currently on
disk. -/
def resume (store : List (String × RunState)) (onDisk : List Step)
    (reports : List Report) (runId fromStepId : String) : Except ResumeError RunResult :=
  match store.lookup runId with
  | none => .error (.unknownRun runId)
  | some st =>
    if fromStepId ∈ st.steps.map Step.id then
      if st.docHash = defHash onDisk then
        .ok (resumeRun st reports ((st.steps.map Step.id).indexOf fromStepId))
      else .error (.hashMismatch st.docHash (defHash onDisk))
    else .error (.unknownStep fromStepId)

/-! ## IAM policy printing

Embedding of `cli/src/commands/policy/policy.ts` (lines 4–108).  The
`print` command builds its output with a shallow spread of a module-level
constant: `policy = { ...BASELINE_POLICY }` copies the reference to the
`Statement` array, so `policy.Statement.push(GUARDRAILS_ADDON)` mutates
the array shared with the module constant.  The module-level mutable cell
is made explicit as `PolicyModuleState`; `policyPrint` is the action of
one `print` invocation (without `--region`/`--account-id` options, which
only rewrite ARN strings) on that state.
-/

/-- The `Resource` value of an IAM statement: a single `"*"` string or an
array of ARNs (the source uses both shapes). -/
inductive ResourceVal where
  | one (s : String)
  | many (l : List String)
deriving DecidableEq, Repr

/-- One IAM policy statement. -/
structure IamStatement where
  effect : String
  action : List String
  resource : ResourceVal
deriving DecidableEq, Repr

/-- One printed IAM policy document. -/
structure IamPolicy where
  version : String
  statement : List IamStatement
deriving DecidableEq, Repr

/-- The initial contents of `BASELINE_POLICY.Statement`. -/
def baselineStatements0 : List IamStatement :=
  [⟨"Allow",
    ["bedrock:InvokeModel", "bedrock:InvokeModelWithResponseStream",
     "bedrock:ListFoundationModels"], .one "*"⟩,
   ⟨"Allow",
    ["bedrock:ListInferenceProfiles", "bedrock:GetInferenceProfile"], .one "*"⟩]

/-- The contents of `INFERENCE_PROFILE_POLICY.Statement` (never mutated by
`print`). -/
def inferenceProfileStatements : List IamStatement :=
  [⟨"Allow",
    ["bedrock:InvokeModel", "bedrock:InvokeModelWithResponseStream"],
    .many ["arn:aws:bedrock:*:*:inference-profile/*",
           "arn:aws:bedrock:*:*:foundation-model/anthropic.*"]⟩,
   ⟨"Allow",
    ["bedrock:ListInferenceProfiles", "bedrock:GetInferenceProfile",
     "bedrock:ListFoundationModels"], .one "*"⟩]

/-- The `GUARDRAILS_ADDON` statement pushed by a guardrails print. -/
def GUARDRAILS_ADDON : IamStatement :=
  ⟨"Allow", ["bedrock:GetGuardrail", "bedrock:ListGuardrails"], .one "*"⟩

/-- The module-level mutable state: the array object that
`BASELINE_POLICY.Statement` points to. -/
structure PolicyModuleState where
  baselineStatement : List IamStatement
deriving DecidableEq, Repr

/-- The state of the module when the process starts. -/
def initPolicyState : PolicyModuleState := ⟨baselineStatements0⟩

/-- The three valid arguments of `policy print` (an invalid argument exits
without printing). -/
inductive PolicyType where
  | baseline
  | inferenceProfile
  | guardrails
deriving DecidableEq, Repr

/-- One invocation of `policy print <type>`: the printed policy and the
module state afterwards.  The `guardrails` case is the source's
`policy = { ...BASELINE_POLICY }; policy.Statement.push(GUARDRAILS_ADDON)`:
the push lands in the shared array, so it both appears in the printed
output and persists in the module state. -/
def policyPrint : PolicyType → PolicyModuleState → IamPolicy × PolicyModuleState
  | .baseline, st => (⟨"2012-10-17", st.baselineStatement⟩, st)
  | .inferenceProfile, st => (⟨"2012-10-17", inferenceProfileStatements⟩, st)
  | .guardrails, st =>
    (⟨"2012-10-17", st.baselineStatement ++ [GUARDRAILS_ADDON]⟩,
     ⟨st.baselineStatement ++ [GUARDRAILS_ADDON]⟩)

/-- A sequence of `policy print` invocations within one process: the list
of printed policies and the final module state. -/
def policyPrintSeq : List PolicyType → PolicyModuleState → List IamPolicy × PolicyModuleState
  | [], st => ([], st)
  | t :: ts, st =>
    let r := policyPrint t st
    let rs := policyPrintSeq ts r.2
    (r.1 :: rs.1, rs.2)

/-! ## Configuration save

Embedding of `saveConfig` from `cli/src/lib/config.ts` (lines 48–76).  The
written config is `{ ...defaults, metadata: computed, ...existingConfig,
...cfg }`: the defaults (including the metadata object computed at save
time) are overridden field-by-field by the existing parsed config, which
is overridden by the caller's `cfg`.  Presence of a field is modelled as
`some`.
-/

/-- The metadata block of a config file. -/
structure ConfigMetadata where
  created : String
  updated : String
deriving DecidableEq, Repr

/-- The Terraform backend block of a config file. -/
structure TerraformBackend where
  bucket : Option String
  region : Option String
  key : Option String
deriving DecidableEq, Repr

/-- A full `BcceConfig` as written to disk. -/
structure BcceConfig where
  version : String
  auth : String
  regions : List String
  guardrails : Bool
  privatelink : Bool
  metadata : ConfigMetadata
  terraform_backend : Option TerraformBackend
  guardrails_arns : Option (List String)
  inference_profiles : Option (List String)
deriving DecidableEq, Repr

/-- A `Partial<BcceConfig>`: every field optional, as in the existing
parsed file or in the caller's argument. -/
structure ConfigPatch where
  version : Option String
  auth : Option String
  regions : Option (List String)
  guardrails : Option Bool
  privatelink : Option Bool
  metadata : Option ConfigMetadata
  terraform_backend : Option TerraformBackend
  guardrails_arns : Option (List String)
  inference_profiles : Option (List String)
deriving DecidableEq, Repr

/-- `saveConfig(cfg)` with the filesystem made explicit: `now` is the
timestamp computed at save time and `existing` the parsed pre-existing
config (all-`none` when the file is absent or corrupted).  The spread
chain `{ defaults, metadata: { created: existing.metadata?.created ||
timestamp, updated: timestamp }, ...existing, ...cfg }` becomes a
field-by-field "cfg, else existing, else default" merge; JavaScript `||`
falsiness of the empty string is kept in the computed `created`
fallback. -/
def saveConfig (now : String) (existing cfg : ConfigPatch) : BcceConfig :=
  let defaultCreated :=
    match existing.metadata with
    | some m => if m.created = "" then now else m.created
    | none => now
  { version := cfg.version.getD (existing.version.getD "0.1.0")
    auth := cfg.auth.getD (existing.auth.getD "identity-center")
    regions := cfg.regions.getD (existing.regions.getD ["us-east-1"])
    guardrails := cfg.guardrails.getD (existing.guardrails.getD false)
    privatelink := cfg.privatelink.getD (existing.privatelink.getD false)
    metadata := cfg.metadata.getD (existing.metadata.getD ⟨defaultCreated, now⟩)
    terraform_backend :=
      match cfg.terraform_backend with
      | some v => some v
      | none => existing.terraform_backend
    guardrails_arns :=
      match cfg.guardrails_arns with
      | some v => some v
      | none => existing.guardrails_arns
    inference_profiles :=
      match cfg.inference_profiles with
      | some v => some v
      | none => existing.inference_profiles }

/-! ## Concrete instances used to exercise the theorems -/

/-- Steps of a document whose second and third steps share the id `b`. -/
def dupSteps : List RawStep :=
  [⟨"a", "prompt", some "p.md", none, none, none, none⟩,
   ⟨"b", "cmd", none, some "ls", none, none, none⟩,
   ⟨"b", "cmd", none, some "ls", none, none, none⟩]

/-- A document whose second and third steps share the id `b`. -/
def docDupIds : RawDoc := ⟨some 1, some "w", some "m", some dupSteps, none⟩

/-- An agent policy with a zero edit budget. -/
def zeroEditPolicy : RawPolicy :=
  ⟨some 300, some 10, some 0, some ["src/**"], some []⟩

/-- Steps of a document with one agent step whose policy has
`max_edits = 0`. -/
def zeroEditSteps : List RawStep :=
  [⟨"a", "agent", none, none, some zeroEditPolicy, none, none⟩]

/-- A document with one agent step whose policy has `max_edits = 0`. -/
def docZeroEdits : RawDoc := ⟨some 1, some "w", some "m", some zeroEditSteps, none⟩

/-- Steps of a document whose only step is a `cmd` step without a
`command`. -/
def missingCmdSteps : List RawStep :=
  [⟨"a", "cmd", none, none, none, none, none⟩]

/-- A document whose only step is a `cmd` step without a `command`. -/
def docMissingCommand : RawDoc := ⟨some 1, some "w", some "m", some missingCmdSteps, none⟩

/-- A document with two structural violations: no `version` and no
`workflow` name. -/
def docTwoSchemaErrors : RawDoc :=
  ⟨none, none, some "m", some [], none⟩

/-- A three-step document for the diagram exporter. -/
def docThreeSteps : List RawStep :=
  [⟨"a", "prompt", some "p.md", none, none, none, none⟩,
   ⟨"b", "cmd", none, some "ls", none, none, none⟩,
   ⟨"c", "apply_diff", none, none, none, none, some false⟩]

/-- A two-step Definition for the engine. -/
def wfTwo : List Step := [⟨"a", .cmd "ls" false⟩, ⟨"b", .prompt "p.md"⟩]

/-- Executor reports for `wfTwo` in which both steps succeed. -/
def reportsTwo : List Report := [.cmdExit 0, .promptDone true]

/-- An agent policy allowing a single touched file. -/
def agentPolicyOne : Policy := ⟨300, 1, 5, ["**"], []⟩

/-- A Definition whose agent step under `agentPolicyOne` is preceded by a
`cmd` step with `on_error: continue` and followed by another `cmd`
step. -/
def wfAgent : List Step :=
  [⟨"a", .cmd "ls" true⟩, ⟨"b", .agent agentPolicyOne⟩, ⟨"c", .cmd "pwd" false⟩]

/-- Counters reporting two files touched. -/
def countersTwoFiles : Counters := ⟨2, 0, 0, [], []⟩

/-- Reports for `wfAgent`: the first cmd step exits nonzero (non-fatal,
`on_error: continue`), then the agent runner reports success but touched
two files. -/
def reportsAgentBreach : List Report :=
  [.cmdExit 1, .agentDone true countersTwoFiles, .cmdExit 0]

/-- A recorded two-step workflow. -/
def wfRecorded : List Step := [⟨"a", .cmd "ls" false⟩, ⟨"b", .cmd "pwd" false⟩]

/-- The same workflow after an edit to its second step. -/
def wfChanged : List Step := [⟨"a", .cmd "ls" false⟩, ⟨"b", .cmd "rm" false⟩]

/-- A persisted run of `wfRecorded` whose step `b` failed. -/
def storedRun : RunState :=
  ⟨wfRecorded, defHash wfRecorded,
   [⟨"a", .succeeded, false, none⟩, ⟨"b", .failed, false, none⟩]⟩

/-- An artifact store holding one run. -/
def runStore : List (String × RunState) := [("run-1", storedRun)]

/-- A pre-existing parsed config with metadata. -/
def existingCfg : ConfigPatch :=
  ⟨some "0.0.9", some "cognito-oidc", some ["eu-west-1"], some true, some false,
   some ⟨"2024-01-01T00:00:00Z", "2024-06-01T00:00:00Z"⟩, none, some ["arn:g"], none⟩

/-- A caller update that only changes the region list. -/
def newCfg : ConfigPatch :=
  ⟨none, none, some ["us-west-2"], none, none, none, none, none, none⟩

/-! ## Engine lemmas -/

/-- `getD` through a `map`, at an in-range index. -/
theorem getDMap {α β : Type} (f : α → β) (l : List α) (i : Nat) (hi : i < l.length)
    (d : α) (e : β) : (l.map f).getD i e = f (l.getD i d) := by
  rw [List.getD_eq_getElem _ _ (by simpa using hi), List.getD_eq_getElem _ _ hi]
  simp

/-- A successful executor report drives the step to `succeeded` with no
warning and no breach. -/
theorem execStep_success :
    ∀ (s : Step) (r : Report), reportSuccess s r = true →
      execStep s r = ⟨s.id, .succeeded, false, none⟩ := by
  rintro ⟨sid, kind⟩ r h
  cases kind <;> cases r <;> simp_all [reportSuccess, execStep]

/-- An agent step whose counters breach its policy ends in
`policy_violation` carrying the breach. -/
theorem execStep_agent_breach (s : Step) (p : Policy) (ok : Bool) (cnt : Counters)
    (v : PolicyBreach) (hkind : s.kind = StepKind.agent p)
    (hbreach : policyCheck p cnt = some v) :
    execStep s (.agentDone ok cnt) = ⟨s.id, .policyViolation, false, some v⟩ := by
  obtain ⟨sid, kind⟩ := s
  simp only at hkind
  subst hkind
  simp [execStep, hbreach]

/-- Once the run is failed, every remaining step is skipped and no
artifact subdirectory is created. -/
theorem runSteps_skipAll :
    ∀ (steps : List Step) (reports : List Report),
      runSteps steps reports true =
        (steps.map fun s => ⟨s.id, .skipped, false, none⟩, true, []) := by
  intro steps
  induction steps with
  | nil => intro reports; rfl
  | cons s rest ih => intro reports; simp only [runSteps]; simp [ih]

/-- When every executor reports success, the engine marks every step
`succeeded`, never fails the run, and records one artifact subdirectory
per step in order. -/
theorem runSteps_allOk :
    ∀ (steps : List Step) (reports : List Report),
      reports.length = steps.length →
      (∀ i, i < steps.length →
        reportSuccess (steps.getD i default) (reports.getD i default) = true) →
      runSteps steps reports false =
        (steps.map fun s => ⟨s.id, .succeeded, false, none⟩, false, steps.map Step.id) := by
  intro steps
  induction steps with
  | nil => intro reports _ _; rfl
  | cons s rest ih =>
    intro reports hlen hok
    cases reports with
    | nil => simp at hlen
    | cons r rs =>
      have h0 := hok 0 (by simp)
      simp only [List.getD_cons_zero] at h0
      have hlen' : rs.length = rest.length := by simpa using hlen
      have hok' : ∀ i, i < rest.length →
          reportSuccess (rest.getD i default) (rs.getD i default) = true := by
        intro i hi
        have := hok (i + 1) (by simpa using Nat.succ_lt_succ hi)
        simpa using this
      simp only [runSteps]
      simp [execStep_success s r h0, ih rs hlen' hok']

/-- If the run reaches index `i` — no step before it ends `failed` or
`policy_violation`; a non-fatal failure of a `cmd` step with `on_error:
continue` is allowed — and the step at `i` ends in `policy_violation`,
the engine executes exactly the steps up to `i`, fails the run there,
skips everything after, and records artifact subdirectories only for the
executed steps. -/
theorem runSteps_breach :
    ∀ (i : Nat) (steps : List Step) (reports : List Report),
      reports.length = steps.length → i < steps.length →
      (∀ j, j < i →
        (execStep (steps.getD j default) (reports.getD j default)).status ≠
          StepStatus.failed ∧
        (execStep (steps.getD j default) (reports.getD j default)).status ≠
          StepStatus.policyViolation) →
      (execStep (steps.getD i default) (reports.getD i default)).status =
        StepStatus.policyViolation →
      runSteps steps reports false =
        ((List.range i).map
            (fun j => execStep (steps.getD j default) (reports.getD j default)) ++
          execStep (steps.getD i default) (reports.getD i default) ::
            (steps.drop (i + 1)).map (fun s => ⟨s.id, .skipped, false, none⟩),
         true,
         (steps.take (i + 1)).map Step.id) := by
  intro i
  induction i with
  | zero =>
    intro steps reports hlen hi hprev hviol
    cases steps with
    | nil => simp at hi
    | cons s rest =>
      cases reports with
      | nil => simp at hlen
      | cons r rs =>
        simp only [List.getD_cons_zero] at hviol ⊢
        have hfail : decide ((execStep s r).status = StepStatus.failed ∨
            (execStep s r).status = StepStatus.policyViolation) = true := by
          simp [hviol]
        simp only [runSteps]
        simp [hfail, runSteps_skipAll]
  | succ i' ih =>
    intro steps reports hlen hi hprev hviol
    cases steps with
    | nil => simp at hi
    | cons s rest =>
      cases reports with
      | nil => simp at hlen
      | cons r rs =>
        have h0 := hprev 0 (Nat.succ_pos i')
        simp only [List.getD_cons_zero] at h0
        have hnf : decide ((execStep s r).status = StepStatus.failed ∨
            (execStep s r).status = StepStatus.policyViolation) = false := by
          simp [h0.1, h0.2]
        have hlen' : rs.length = rest.length := by simpa using hlen
        have hi' : i' < rest.length := by simpa using hi
        have hprev' : ∀ j, j < i' →
            (execStep (rest.getD j default) (rs.getD j default)).status ≠
              StepStatus.failed ∧
            (execStep (rest.getD j default) (rs.getD j default)).status ≠
              StepStatus.policyViolation := by
          intro j hj
          have := hprev (j + 1) (by omega)
          simpa using this
        have hviol' : (execStep (rest.getD i' default) (rs.getD i' default)).status =
            StepStatus.policyViolation := by simpa using hviol
        simp only [runSteps]
        simp only [List.getD_cons_succ]
        simp [hnf, ih rest rs hlen' hi' hprev' hviol', List.range_succ_eq_map,
          Function.comp]

/-! ## Claim theorems -/

/-- C1: for every Workflow of N steps whose executors all report success,
running the workflow produces exactly N StepExecutions in Workflow
sequence order, each with status `succeeded`, the Run's overall status is
`succeeded`, and the Artifact Store holds exactly N step subdirectories in
that order. -/
theorem run_all_success (steps : List Step) (reports : List Report)
    (hlen : reports.length = steps.length)
    (hok : ∀ i, i < steps.length →
      reportSuccess (steps.getD i default) (reports.getD i default) = true) :
    (runWorkflow steps reports).execs.length = steps.length ∧
    (∀ i, i < steps.length →
      ((runWorkflow steps reports).execs.getD i default).stepId =
        (steps.getD i default).id ∧
      ((runWorkflow steps reports).execs.getD i default).status =
        StepStatus.succeeded) ∧
    (runWorkflow steps reports).status = RunStatus.succeeded ∧
    (runWorkflow steps reports).artifacts = steps.map Step.id := by
  have h := runSteps_allOk steps reports hlen hok
  have hrw : runWorkflow steps reports =
      ⟨steps.map fun s => ⟨s.id, .succeeded, false, none⟩, .succeeded,
       steps.map Step.id⟩ := by
    simp [runWorkflow, h]
  rw [hrw]
  refine ⟨by simp, ?_, rfl, rfl⟩
  intro i hi
  rw [getDMap _ _ i hi default default]
  exact ⟨rfl, rfl⟩

/-- Witness for C1: a two-step workflow with all-success reports runs to a
succeeded Run with both artifact subdirectories. -/
theorem run_all_success_witness :
    (runWorkflow wfTwo reportsTwo).status = RunStatus.succeeded ∧
    (runWorkflow wfTwo reportsTwo).artifacts = wfTwo.map Step.id :=
  ⟨(run_all_success wfTwo reportsTwo (by decide) (by decide)).2.2.1,
   (run_all_success wfTwo reportsTwo (by decide) (by decide)).2.2.2⟩

/-- C2: for every Run and every agent step the Run reaches — no earlier
StepExecution ended `failed` or `policy_violation`, while earlier
non-fatal `cmd` failures under `on_error: continue` are allowed — if the
Policy Guard detects a budget breach then that StepExecution ends
`policy_violation`, the Run ends `failed`, every later step is skipped
(regardless of any `on_error` setting on any step), and the Artifact
Store records subdirectories only for the steps up to and including the
violating one. -/
theorem agent_breach_aborts (steps : List Step) (reports : List Report)
    (i : Nat) (p : Policy) (ok : Bool) (cnt : Counters) (v : PolicyBreach)
    (hlen : reports.length = steps.length) (hi : i < steps.length)
    (hkind : (steps.getD i default).kind = StepKind.agent p)
    (hrep : reports.getD i default = Report.agentDone ok cnt)
    (hbreach : policyCheck p cnt = some v)
    (hprev : ∀ j, j < i →
      (execStep (steps.getD j default) (reports.getD j default)).status ≠
        StepStatus.failed ∧
      (execStep (steps.getD j default) (reports.getD j default)).status ≠
        StepStatus.policyViolation) :
    ((runWorkflow steps reports).execs.getD i default).status =
      StepStatus.policyViolation ∧
    (runWorkflow steps reports).status = RunStatus.failed ∧
    (∀ j, i < j → j < steps.length →
      ((runWorkflow steps reports).execs.getD j default).status =
        StepStatus.skipped) ∧
    (runWorkflow steps reports).artifacts = (steps.take (i + 1)).map Step.id := by
  have hexec : execStep (steps.getD i default) (reports.getD i default) =
      ⟨(steps.getD i default).id, .policyViolation, false, some v⟩ := by
    rw [hrep]
    exact execStep_agent_breach _ p ok cnt v hkind hbreach
  have hviol : (execStep (steps.getD i default) (reports.getD i default)).status =
      StepStatus.policyViolation := by rw [hexec]
  have h := runSteps_breach i steps reports hlen hi hprev hviol
  have hrw : runWorkflow steps reports =
      ⟨(List.range i).map
          (fun j => execStep (steps.getD j default) (reports.getD j default)) ++
        execStep (steps.getD i default) (reports.getD i default) ::
          (steps.drop (i + 1)).map (fun s => ⟨s.id, .skipped, false, none⟩),
       .failed, (steps.take (i + 1)).map Step.id⟩ := by
    simp [runWorkflow, h]
  rw [hrw]
  have hA : ((List.range i).map
      (fun j => execStep (steps.getD j default) (reports.getD j default))).length = i := by
    simp
  refine ⟨?_, rfl, ?_, rfl⟩
  · rw [List.getD_append_right _ _ _ _ (le_of_eq hA)]
    rw [hA, Nat.sub_self, List.getD_cons_zero]
    exact hviol
  · intro j hij hj
    rw [List.getD_append_right _ _ _ _ (by omega : ((List.range i).map
      (fun j => execStep (steps.getD j default) (reports.getD j default))).length ≤ j)]
    rw [hA]
    obtain ⟨k, hk⟩ : ∃ k, j - i = k + 1 := ⟨j - i - 1, by omega⟩
    rw [hk, List.getD_cons_succ]
    have hklt : k < (steps.drop (i + 1)).length := by
      simp only [List.length_drop]
      omega
    rw [getDMap _ _ k hklt default default]

/-- Witness for C2: a run of `wfAgent` whose first cmd step exits nonzero
under `on_error: continue` still reaches the agent step; the agent runner
reports two files touched against `max_files = 1`, so step `b` ends in
`policy_violation`, the run fails and step `c` is skipped. -/
theorem agent_breach_witness :
    ((runWorkflow wfAgent reportsAgentBreach).execs.getD 1 default).status =
      StepStatus.policyViolation ∧
    (runWorkflow wfAgent reportsAgentBreach).status = RunStatus.failed ∧
    ((runWorkflow wfAgent reportsAgentBreach).execs.getD 2 default).status =
      StepStatus.skipped :=
  have h := agent_breach_aborts wfAgent reportsAgentBreach 1 agentPolicyOne
    true countersTwoFiles (.tooManyFiles 2) (by decide) (by decide)
    (by decide) rfl (by decide) (by decide)
  ⟨h.1, h.2.1, h.2.2.1 2 (by omega) (by decide)⟩

/-! ## Validator claim theorems -/

/-- A clean per-step verdict means the id was fresh and the field checks
passed. -/
theorem stepVerdict_none_iff (prior : List String) (s : RawStep) :
    stepVerdict prior s = none ↔ s.id ∉ prior ∧ stepFieldError s = none := by
  unfold stepVerdict
  split <;> simp_all

/-- A non-empty structural error list means the document is rejected. -/
theorem not_accepted_of_schema_ne_nil (d : RawDoc) (h : schemaCheck d ≠ []) :
    isAccepted (validateWorkflow d) = false := by
  unfold validateWorkflow
  cases hsc : schemaCheck d with
  | nil => exact absurd hsc h
  | cons a as => rfl

/-- With a clean structural pass, `validate` is decided by the semantic
loop. -/
theorem validate_semantic_path (d : RawDoc) (hsc : schemaCheck d = []) :
    validateWorkflow d =
      match semanticCheck (d.steps.getD []) with
      | some e => .error (.semantic e)
      | none => .ok d := by
  unfold validateWorkflow
  rw [hsc]

/-- C4: for every Workflow document containing two steps with the same id,
`validate` rejects the document, and whenever the reported error is a
duplicate-id error, the id it names sits at the first duplicate position
in document order — the earliest step whose id already occurred at a
smaller index. -/
theorem validate_dup_first (d : RawDoc) (steps : List RawStep)
    (hs : d.steps = some steps)
    (hdup : ∃ a b, a < b ∧ b < steps.length ∧
      (steps.getD a default).id = (steps.getD b default).id) :
    isAccepted (validateWorkflow d) = false ∧
    ∀ x, semanticCheck steps = some (.duplicateId x) →
      ∃ i, i < steps.length ∧ (steps.getD i default).id = x ∧
        (∃ j, j < i ∧ (steps.getD j default).id = x) ∧
        ∀ k, k < i → ¬∃ j, j < k ∧
          (steps.getD j default).id = (steps.getD k default).id := by
  obtain ⟨a, b, hab, hb, heq⟩ := hdup
  constructor
  · cases hsc : schemaCheck d with
    | cons e es => exact not_accepted_of_schema_ne_nil d (by rw [hsc]; simp)
    | nil =>
      rw [validate_semantic_path d hsc, hs]
      simp only [Option.getD_some]
      cases hsem : semanticCheck steps with
      | some e => rfl
      | none =>
        exfalso
        have hvb := semFrom_none steps [] hsem b hb
        rw [List.nil_append] at hvb
        have hnot := (stepVerdict_none_iff _ _).mp hvb
        exact hnot.1 ((mem_idsBefore steps b).mpr ⟨a, hab, by omega, heq⟩)
  · intro x hsem
    obtain ⟨i, hi, hid, hmem, hclean⟩ := semFrom_dup steps [] x hsem
    rw [List.nil_append] at hmem
    obtain ⟨j, hji, _, hjid⟩ := (mem_idsBefore steps i).mp (hid ▸ hmem)
    refine ⟨i, hi, hid, ⟨j, hji, hjid⟩, ?_⟩
    intro k hk hex
    obtain ⟨j', hj'k, hj'id⟩ := hex
    have hvk := hclean k hk
    rw [List.nil_append] at hvk
    exact ((stepVerdict_none_iff _ _).mp hvk).1
      ((mem_idsBefore steps k).mpr ⟨j', hj'k, by omega, hj'id⟩)

/-- Witness for C4: the document `docDupIds` (duplicate id `b`) is
rejected and the semantic loop names `b`, the first duplicate. -/
theorem validate_dup_first_witness :
    isAccepted (validateWorkflow docDupIds) = false ∧
    ∃ i, i < dupSteps.length ∧ (dupSteps.getD i default).id = "b" ∧
      (∃ j, j < i ∧ (dupSteps.getD j default).id = "b") ∧
      ∀ k, k < i → ¬∃ j, j < k ∧
        (dupSteps.getD j default).id = (dupSteps.getD k default).id :=
  have h := validate_dup_first docDupIds dupSteps rfl
    ⟨1, 2, by decide, by decide, by decide⟩
  ⟨h.1, h.2 "b" (by decide)⟩

/-- C5: for every Workflow document containing an agent step whose policy
has `max_edits` equal to 0, `validate` rejects the document — the
structural pass contains the minimum-bound violation for that step, so
acceptance is impossible. -/
theorem validate_zero_edits (d : RawDoc) (steps : List RawStep) (i : Nat)
    (p : RawPolicy) (hs : d.steps = some steps) (hi : i < steps.length)
    (_htype : (steps.getD i default).type = "agent")
    (hpol : (steps.getD i default).policy = some p)
    (hme : p.max_edits = some 0) :
    isAccepted (validateWorkflow d) = false := by
  obtain ⟨e, he⟩ : ∃ e, e ∈ checkPolicyBounds i (steps.getD i default) := by
    refine ⟨⟨"/steps/" ++ toString i ++ "/policy/" ++ "max_edits", "must be >= 1"⟩, ?_⟩
    simp only [checkPolicyBounds, hpol, hme]
    simp [List.mem_append]
  have hmem : e ∈ schemaCheck d := by
    unfold schemaCheck checkSteps
    rw [hs]
    refine List.mem_append_right _ ?_
    rw [List.mem_flatMap]
    exact ⟨i, List.mem_range.mpr hi, List.mem_append_right _ he⟩
  exact not_accepted_of_schema_ne_nil d (List.ne_nil_of_mem hmem)

/-- Witness for C5: the document `docZeroEdits` (agent step, zero edit
budget) is rejected. -/
theorem validate_zero_edits_witness :
    isAccepted (validateWorkflow docZeroEdits) = false :=
  validate_zero_edits docZeroEdits zeroEditSteps 0 zeroEditPolicy rfl
    (by decide) (by decide) (by decide) (by decide)

/-- A step of one of the three checked types that lacks its mandatory
field produces exactly the source's missing-field error. -/
theorem stepFieldError_of_mand (s : RawStep) (f : String)
    (hmand : mandatoryFieldOf s = some f) (hlack : lacksField s f = true) :
    stepFieldError s = some (.missingField s.id f) := by
  unfold mandatoryFieldOf at hmand
  unfold lacksField at hlack
  unfold stepFieldError
  split_ifs at hmand with h1 h2 h3
  · obtain rfl := Option.some.inj hmand
    simp_all
  · obtain rfl := Option.some.inj hmand
    simp_all
  · obtain rfl := Option.some.inj hmand
    simp_all

/-- C6: for every step of type prompt, cmd or agent that lacks its
type-specific mandatory field, `validate` rejects the document; and when
no earlier step triggers an error and the step's own id is fresh, the
reported error names exactly that step's id and the missing field. -/
theorem validate_missing_field (d : RawDoc) (steps : List RawStep) (i : Nat)
    (f : String) (hs : d.steps = some steps) (hi : i < steps.length)
    (hmand : mandatoryFieldOf (steps.getD i default) = some f)
    (hlack : lacksField (steps.getD i default) f = true) :
    isAccepted (validateWorkflow d) = false ∧
    ((∀ j, j < i →
        stepVerdict (idsBefore steps j) (steps.getD j default) = none) →
      (steps.getD i default).id ∉ idsBefore steps i →
      semanticCheck steps =
        some (.missingField (steps.getD i default).id f)) := by
  have hfe := stepFieldError_of_mand _ f hmand hlack
  constructor
  · cases hsc : schemaCheck d with
    | cons e es => exact not_accepted_of_schema_ne_nil d (by rw [hsc]; simp)
    | nil =>
      rw [validate_semantic_path d hsc, hs]
      simp only [Option.getD_some]
      cases hsem : semanticCheck steps with
      | some e => rfl
      | none =>
        exfalso
        have hvi := semFrom_none steps [] hsem i hi
        rw [List.nil_append] at hvi
        have := ((stepVerdict_none_iff _ _).mp hvi).2
        rw [hfe] at this
        exact absurd this (by simp)
  · intro hclean hfresh
    refine semFrom_some_of steps [] i _ hi ?_ ?_
    · intro j hj
      rw [List.nil_append]
      exact hclean j hj
    · rw [List.nil_append]
      unfold stepVerdict
      rw [if_neg hfresh]
      exact hfe

/-- Witness for C6: the document `docMissingCommand` (cmd step `a` with no
`command`) is rejected and the error names step `a` and field
`command`. -/
theorem validate_missing_field_witness :
    isAccepted (validateWorkflow docMissingCommand) = false ∧
    semanticCheck missingCmdSteps = some (.missingField "a" "command") :=
  have h := validate_missing_field docMissingCommand missingCmdSteps 0 "command"
    rfl (by decide) (by decide) (by decide)
  ⟨h.1, h.2 (fun j hj => absurd hj (Nat.not_lt_zero j)) (by simp [idsBefore])⟩

/-- C7: for every document with two or more structural violations,
`validate` rejects it and the error carries the full list of violations —
each check's errors are all present, none is dropped in favour of the
first. -/
theorem validate_all_schema_errors (d : RawDoc)
    (h2 : 2 ≤ (schemaCheck d).length) :
    validateWorkflow d = .error (.schema (schemaCheck d)) ∧
    (∀ e, e ∈ checkVersion d → e ∈ schemaCheck d) ∧
    (∀ e, e ∈ checkWorkflowName d → e ∈ schemaCheck d) ∧
    (∀ e, e ∈ checkModel d → e ∈ schemaCheck d) ∧
    (∀ e, e ∈ checkSteps d → e ∈ schemaCheck d) := by
  refine ⟨?_, ?_, ?_, ?_, ?_⟩
  · unfold validateWorkflow
    cases hsc : schemaCheck d with
    | nil => rw [hsc] at h2; simp at h2
    | cons a as => rfl
  · intro e he
    exact List.mem_append_left _ (List.mem_append_left _ (List.mem_append_left _ he))
  · intro e he
    exact List.mem_append_left _ (List.mem_append_left _ (List.mem_append_right _ he))
  · intro e he
    exact List.mem_append_left _ (List.mem_append_right _ he)
  · intro e he
    exact List.mem_append_right _ he

/-- Witness for C7: `docTwoSchemaErrors` (no `version`, no `workflow`)
carries both violations in the single rejection. -/
theorem validate_all_schema_errors_witness :
    2 ≤ (schemaCheck docTwoSchemaErrors).length ∧
    validateWorkflow docTwoSchemaErrors =
      .error (.schema (schemaCheck docTwoSchemaErrors)) :=
  ⟨by decide, (validate_all_schema_errors docTwoSchemaErrors (by decide)).1⟩

/-- C8: for every Workflow of N steps, the diagram export produces exactly
N nodes — one per step, tagged with its type — and exactly N − 1 directed
edges, each connecting a step to its immediate successor in document
order. -/
theorem diagram_projection (steps : List RawStep) :
    (diagramNodes steps).length = steps.length ∧
    (diagramEdges steps).length = steps.length - 1 ∧
    (∀ i, i < steps.length →
      (diagramNodes steps).getD i default = nodeOf (steps.getD i default)) ∧
    (∀ i, i + 1 < steps.length →
      (diagramEdges steps).getD i default =
        ⟨(steps.getD i default).id, (steps.getD (i + 1) default).id⟩) := by
  refine ⟨by simp [diagramNodes], by simp [diagramEdges], ?_, ?_⟩
  · intro i hi
    simpa [diagramNodes] using getDMap nodeOf steps i hi default default
  · intro i hi
    have hlen : i < (List.range (steps.length - 1)).length := by
      simp only [List.length_range]
      omega
    unfold diagramEdges
    rw [getDMap _ _ i hlen default default]
    have hr : (List.range (steps.length - 1)).getD i default = i := by
      rw [List.getD_eq_getElem _ _ hlen]
      simp
    rw [hr]

/-- Witness for C8: the three-step document exports three nodes and two
edges in document order. -/
theorem diagram_projection_witness :
    (diagramNodes docThreeSteps).length = 3 ∧
    (diagramEdges docThreeSteps).length = 2 ∧
    (diagramEdges docThreeSteps).getD 0 default = ⟨"a", "b"⟩ ∧
    (diagramEdges docThreeSteps).getD 1 default = ⟨"b", "c"⟩ :=
  have h := diagram_projection docThreeSteps
  ⟨h.1, h.2.1, h.2.2.2 0 (by decide), h.2.2.2 1 (by decide)⟩

/-- C3: for every resume request, an unknown run id, a `fromStepId` not in
the recorded Workflow, or a recorded Definition hash that no longer
matches the on-disk workflow document each yield a ResumeError and no
execution; conversely a successful resume certifies that the run was
found, the step exists and the hash matches — a changed document is never
silently resumed. -/
theorem resume_guards (store : List (String × RunState)) (onDisk : List Step)
    (reports : List Report) (runId fromStepId : String) :
    (store.lookup runId = none →
      resume store onDisk reports runId fromStepId =
        .error (.unknownRun runId)) ∧
    (∀ st, store.lookup runId = some st →
      fromStepId ∉ st.steps.map Step.id →
      resume store onDisk reports runId fromStepId =
        .error (.unknownStep fromStepId)) ∧
    (∀ st, store.lookup runId = some st →
      fromStepId ∈ st.steps.map Step.id →
      st.docHash ≠ defHash onDisk →
      resume store onDisk reports runId fromStepId =
        .error (.hashMismatch st.docHash (defHash onDisk))) ∧
    (∀ r, resume store onDisk reports runId fromStepId = .ok r →
      ∃ st, store.lookup runId = some st ∧
        fromStepId ∈ st.steps.map Step.id ∧ st.docHash = defHash onDisk) := by
  refine ⟨?_, ?_, ?_, ?_⟩
  · intro h
    simp [resume, h]
  · intro st hst hmem
    simp [resume, hst, hmem]
  · intro st hst hmem hhash
    simp [resume, hst, hmem, hhash]
  · intro r hr
    cases hst : store.lookup runId with
    | none =>
      simp only [resume, hst] at hr
      exact absurd hr (by simp)
    | some st =>
      simp only [resume, hst] at hr
      by_cases hmem : fromStepId ∈ st.steps.map Step.id
      · by_cases hhash : st.docHash = defHash onDisk
        · exact ⟨st, rfl, hmem, hhash⟩
        · rw [if_pos hmem, if_neg hhash] at hr
          exact absurd hr (by simp)
      · rw [if_neg hmem] at hr
        exact absurd hr (by simp)

/-- Witness for C3: resuming run `run-1` from step `b` after the on-disk
document changed returns a hash-mismatch ResumeError. -/
theorem resume_guards_witness :
    resume runStore wfChanged [] "run-1" "b" =
      .error (.hashMismatch storedRun.docHash (defHash wfChanged)) :=
  (resume_guards runStore wfChanged [] "run-1" "b").2.2.1 storedRun
    (by decide) (by decide) (by decide)

/-! ## Policy print claim (C9) -/

/-- A guardrails print appends one statement to the shared module-level
array; any sequence of prints accumulates one copy per guardrails
print. -/
theorem policyPrintSeq_state :
    ∀ (tys : List PolicyType) (st : PolicyModuleState),
      (policyPrintSeq tys st).2.baselineStatement =
        st.baselineStatement ++
          List.replicate (tys.count .guardrails) GUARDRAILS_ADDON := by
  intro tys
  induction tys with
  | nil => intro st; simp [policyPrintSeq]
  | cons t ts ih =>
    intro st
    cases t <;>
      simp [policyPrintSeq, policyPrint, ih, List.count_cons, List.replicate_succ,
        List.append_assoc]

/-- Counterexample to C9 as stated: after a `guardrails` print has
appended the guardrails statement to the shared array, a subsequent print
of type `inference-profile` emits a policy that does NOT contain it — so
not every subsequent print carries the previously appended guardrail
statements. -/
theorem policy_print_counterexample :
    ((policyPrintSeq [.guardrails, .inferenceProfile] initPolicyState).2).baselineStatement =
      baselineStatements0 ++ [GUARDRAILS_ADDON] ∧
    GUARDRAILS_ADDON ∉
      ((policyPrintSeq [.guardrails, .inferenceProfile] initPolicyState).1.getD 1
        ⟨"", []⟩).statement := by
  constructor
  · rfl
  · decide

/-- C9 (amended): printing the guardrails policy is not pure — the shallow
copy shares its Statement array with the module-level constant, so each
`guardrails` print permanently appends the guardrails statement to
`BASELINE_POLICY`, and every subsequent print of type `baseline` or
`guardrails` in the same process emits a policy containing all previously
appended guardrail statements. -/
theorem policy_print_shared_statement (tys : List PolicyType) :
    ((policyPrintSeq tys initPolicyState).2).baselineStatement =
      baselineStatements0 ++
        List.replicate (tys.count .guardrails) GUARDRAILS_ADDON ∧
    (policyPrint .baseline (policyPrintSeq tys initPolicyState).2).1.statement =
      baselineStatements0 ++
        List.replicate (tys.count .guardrails) GUARDRAILS_ADDON ∧
    (policyPrint .guardrails (policyPrintSeq tys initPolicyState).2).1.statement =
      baselineStatements0 ++
        List.replicate (tys.count .guardrails + 1) GUARDRAILS_ADDON := by
  have h := policyPrintSeq_state tys initPolicyState
  refine ⟨h, ?_, ?_⟩
  · simpa [policyPrint] using h
  · simp only [policyPrint, h]
    rw [List.append_assoc, ← List.replicate_succ']
    rfl

/-! ## Configuration claim (C10) -/

/-- C10: for every call to `saveConfig` over an existing parseable config,
every field the caller's `cfg` does not supply is carried over unchanged
from the existing config — in particular an existing metadata object
(both `created` and `updated`) survives intact instead of being replaced
by the defaults computed at save time. -/
theorem saveConfig_preserves_existing (now : String) (existing cfg : ConfigPatch) :
    (∀ m, cfg.metadata = none → existing.metadata = some m →
      (saveConfig now existing cfg).metadata = m) ∧
    (∀ v, cfg.version = none → existing.version = some v →
      (saveConfig now existing cfg).version = v) ∧
    (∀ v, cfg.auth = none → existing.auth = some v →
      (saveConfig now existing cfg).auth = v) ∧
    (∀ v, cfg.regions = none → existing.regions = some v →
      (saveConfig now existing cfg).regions = v) ∧
    (∀ v, cfg.guardrails = none → existing.guardrails = some v →
      (saveConfig now existing cfg).guardrails = v) ∧
    (∀ v, cfg.privatelink = none → existing.privatelink = some v →
      (saveConfig now existing cfg).privatelink = v) ∧
    (∀ v, cfg.terraform_backend = none → existing.terraform_backend = some v →
      (saveConfig now existing cfg).terraform_backend = some v) ∧
    (∀ v, cfg.guardrails_arns = none → existing.guardrails_arns = some v →
      (saveConfig now existing cfg).guardrails_arns = some v) ∧
    (∀ v, cfg.inference_profiles = none → existing.inference_profiles = some v →
      (saveConfig now existing cfg).inference_profiles = some v) := by
  refine ⟨?_, ?_, ?_, ?_, ?_, ?_, ?_, ?_, ?_⟩ <;>
    · intro v h1 h2
      simp [saveConfig, h1, h2]

/-- Witness for C10: saving `newCfg` over `existingCfg` keeps the
existing metadata (created and updated) and version. -/
theorem saveConfig_preserves_existing_witness :
    (saveConfig "2025-01-01T00:00:00Z" existingCfg newCfg).metadata =
      ⟨"2024-01-01T00:00:00Z", "2024-06-01T00:00:00Z"⟩ ∧
    (saveConfig "2025-01-01T00:00:00Z" existingCfg newCfg).version = "0.0.9" :=
  have h := saveConfig_preserves_existing "2025-01-01T00:00:00Z" existingCfg newCfg
  ⟨h.1 _ rfl rfl, h.2.1 _ rfl rfl⟩

end BCCE
